import Mathlib

/-!
Verification of the medication tracker (src/medicationtracker.rs).

Shallow embedding conventions:
* Rust `String` is embedded as `List Char` (abbreviated `Str`), so that the
  character-level persistence format (comma-separated fields, newline-separated
  records) can be reasoned about directly.
* Rust `HashMap<String, V>` is embedded as an association list
  `List (Str × V)` with unique keys.  The embedding fixes one admissible
  iteration order (insertion order); every theorem below quantifies over
  arbitrary association lists, hence holds for every iteration order the real
  `HashMap` might present.
* `HashMap::insert` overwrites in place or appends a fresh key at the end;
  `entry(..).or_insert(..)` appends a fresh entry when the key is absent;
  `get_mut` + mutation is `alistModify`.
* Mutating Rust methods become pure functions from tracker to tracker; methods
  returning `Result<(), String>` return `MedicationTracker × Except Str Unit`,
  the first component being the (possibly updated) receiver.
* File contents are `Str` values; `save_data`/`save_logs` produce the exact
  character sequence the Rust code writes, `load_data`/`load_logs` consume a
  character sequence through the same line/field splitting the Rust code
  performs via `BufRead::lines` and `str::split(',')`.
-/

abbrev Str := List Char

/-- Character list of a string literal (embedding of a Rust string literal). -/
def str (s : String) : Str := s.data

/-! ## Association lists: the embedding of `HashMap<String, V>` -/

/-- `HashMap::get`: first binding of the key, if any. -/
def alistLookup {α : Type} : List (Str × α) → Str → Option α
  | [], _ => none
  | (k', v') :: rest, k => if k' = k then some v' else alistLookup rest k

/-- `HashMap::contains_key`. -/
def alistContains {α : Type} (m : List (Str × α)) (k : Str) : Bool :=
  (alistLookup m k).isSome

/-- `HashMap::insert`: overwrite the existing binding in place, or append a
fresh binding at the end (the iteration order fixed by the embedding). -/
def alistInsert {α : Type} : List (Str × α) → Str → α → List (Str × α)
  | [], k, v => [(k, v)]
  | (k', v') :: rest, k, v =>
    if k' = k then (k, v) :: rest else (k', v') :: alistInsert rest k v

/-- `HashMap::get_mut` followed by a mutation: update the binding in place
(no effect when the key is absent). -/
def alistModify {α : Type} : List (Str × α) → Str → (α → α) → List (Str × α)
  | [], _, _ => []
  | (k', v') :: rest, k, f =>
    if k' = k then (k', f v') :: rest else (k', v') :: alistModify rest k f

/-! ## Data model -/

/-- The `Medication` struct.  The Rust counts are `u32`; they are embedded as
`Nat` (range facts are carried as hypotheses where they matter). -/
structure Medication where
  name : Str
  dosage : Str
  time_of_day : Str
  current_count : Nat
  total_prescribed : Nat
deriving DecidableEq, Repr

/-- The `DailyLog` struct: a date label and a name-to-taken-flag map. -/
structure DailyLog where
  date : Str
  taken : List (Str × Bool)
deriving DecidableEq, Repr

/-- The `MedicationTracker` struct (the two derived file names are not part of
the state; persistence functions take and return file contents directly). -/
structure MedicationTracker where
  medications : List (Str × Medication)
  daily_logs : List (Str × DailyLog)
  patient_name : Str
deriving DecidableEq, Repr

/-- A tracker before any file has been loaded (the fresh state built by
`MedicationTracker::new` prior to its `load_data`/`load_logs` calls). -/
def emptyTracker (patient_name : Str) : MedicationTracker :=
  { medications := [], daily_logs := [], patient_name := patient_name }

/-! ## Operations -/

/-- `add_medication`: insert or overwrite the medication keyed by its name,
with both counts set to the starting quantity. -/
def add_medication (t : MedicationTracker) (name dosage time_of_day : Str)
    (count : Nat) : MedicationTracker :=
  let med : Medication :=
    { name := name, dosage := dosage, time_of_day := time_of_day,
      current_count := count, total_prescribed := count }
  { t with medications := alistInsert t.medications name med }

/-- `mark_taken`: fails when the name is unknown; otherwise records the flag in
the (lazily created) daily log for the date and, when the flag is true,
decrements the current count unless it is already zero. -/
def mark_taken (t : MedicationTracker) (med_name date : Str) (taken : Bool) :
    MedicationTracker × Except Str Unit :=
  if alistContains t.medications med_name then
    let logs0 :=
      if alistContains t.daily_logs date then t.daily_logs
      else alistInsert t.daily_logs date { date := date, taken := [] }
    let logs := alistModify logs0 date
      (fun log => { log with taken := alistInsert log.taken med_name taken })
    let meds :=
      if taken then
        alistModify t.medications med_name
          (fun med =>
            if med.current_count > 0 then
              { med with current_count := med.current_count - 1 }
            else med)
      else t.medications
    ({ t with medications := meds, daily_logs := logs }, Except.ok ())
  else
    (t, Except.error (str "Medication not found"))

/-- The taken entry recorded for a date and medication name, if any
(the `daily_logs.get(date).and_then(|log| log.taken.get(name))` pattern). -/
def takenEntry (t : MedicationTracker) (date name : Str) : Option Bool :=
  (alistLookup t.daily_logs date).bind (fun log => alistLookup log.taken name)

/-- The taken flag for a date and medication name, defaulting to false
(the `...copied().unwrap_or(false)` pattern). -/
def takenFlag (t : MedicationTracker) (date name : Str) : Bool :=
  (takenEntry t date name).getD false

/-- The tuple `check_today_status` builds for one medication before sorting. -/
def statusTuple (t : MedicationTracker) (date : Str) (p : Str × Medication) :
    Str × Str × Bool × Str :=
  let taken := takenFlag t date p.1
  let reminder :=
    if !taken then
      str "REMINDER: Take " ++ p.1 ++ str " at " ++ p.2.time_of_day
    else str "Taken"
  (p.1, p.2.dosage ++ str " (" ++ p.2.time_of_day ++ str ")", taken, reminder)

/-- The status list of `check_today_status` before the final sort. -/
def statusUnsorted (t : MedicationTracker) (date : Str) :
    List (Str × Str × Bool × Str) :=
  t.medications.map (statusTuple t date)

/-- Byte-wise lexicographic order on strings, the embedding of Rust
`String::cmp` as a weak order (true iff left is less than or equal). -/
def strLe : Str → Str → Bool
  | [], _ => true
  | _ :: _, [] => false
  | a :: as, b :: bs => if a < b then true else if a = b then strLe as bs else false

/-- `check_today_status`: one tuple `(name, details, taken, reminder)` per
medication, stably sorted by the details string.  Rust `sort_by` is a stable
sort; any two stable sorts by the same total preorder agree, so the embedding
uses the stable `List.mergeSort`. -/
def check_today_status (t : MedicationTracker) (date : Str) :
    List (Str × Str × Bool × Str) :=
  (statusUnsorted t date).mergeSort (fun a b => strLe a.2.1 b.2.1)

/-- `get_missed_medications`: the entries of medications whose taken flag for
the date is false or absent. -/
def get_missed_medications (t : MedicationTracker) (date : Str) : List Str :=
  t.medications.filterMap
    (fun p =>
      if takenFlag t date p.1 then none
      else some (p.1 ++ str " at " ++ p.2.time_of_day))

/-- `refill_medication`: fails when the name is unknown; otherwise adds the
amount to both counts.  The counts are u32 in the source, so the additions
are taken modulo 2^32: past u32::MAX a release build wraps (a debug build
would abort instead, and no theorem below asserts anything at overflow
inputs). -/
def refill_medication (t : MedicationTracker) (name : Str) (amount : Nat) :
    MedicationTracker × Except Str Unit :=
  match alistLookup t.medications name with
  | some _ =>
    let meds := alistModify t.medications name
      (fun med =>
        { med with current_count := (med.current_count + amount) % 2 ^ 32,
                   total_prescribed := (med.total_prescribed + amount) % 2 ^ 32 })
    ({ t with medications := meds }, Except.ok ())
  | none => (t, Except.error (str "Medication not found"))

/-! ## Number formatting and parsing (u32 Display / FromStr) -/

/-- Decimal digits, fuel-based so that evaluation is structural (the fuel is
always sufficient because a number needs no more digits than its value). -/
def natDigitsAux : Nat → Nat → Str
  | _, 0 => []
  | 0, _ + 1 => []
  | fuel + 1, n + 1 =>
    natDigitsAux fuel ((n + 1) / 10) ++ [Char.ofNat (48 + (n + 1) % 10)]

/-- Decimal digits of a positive number, most significant first;
empty for zero. -/
def natDigits (n : Nat) : Str := natDigitsAux n n

/-- Decimal rendering of an unsigned number (Rust u32 Display). -/
def natToStr (n : Nat) : Str :=
  if n = 0 then ['0'] else natDigits n

/-- Numeric value of a decimal digit character, if it is one. -/
def digitVal (c : Char) : Option Nat :=
  if '0' ≤ c ∧ c ≤ '9' then some (c.toNat - 48) else none

/-- Accumulating decimal parse; fails on any non-digit character. -/
def parseDigits : Str → Nat → Option Nat
  | [], acc => some acc
  | c :: cs, acc =>
    match digitVal c with
    | some d => parseDigits cs (acc * 10 + d)
    | none => none

/-- Rust `u32::from_str`: an optional leading plus sign, then one or more
decimal digits, value below 2^32; anything else is a parse error. -/
def parseU32 (s : Str) : Option Nat :=
  let body := if s.head? = some '+' then s.tail else s
  if body = [] then none
  else (parseDigits body 0).bind (fun v => if v < 2 ^ 32 then some v else none)

/-! ## Persistence: serialization -/

/-- One medications-file record without its terminating newline:
the five comma-separated fields. -/
def medLineBody (med : Medication) : Str :=
  med.name ++ [','] ++ med.dosage ++ [','] ++ med.time_of_day ++ [','] ++
    natToStr med.current_count ++ [','] ++ natToStr med.total_prescribed

/-- One medications-file record as written by `save_data`. -/
def medLine (med : Medication) : Str := medLineBody med ++ ['\n']

/-- `save_data`: the full contents written to the medications file. -/
def save_data (t : MedicationTracker) : Str :=
  (t.medications.map (fun p => medLine p.2)).flatten

/-- One logs-file record without its terminating newline:
date, medication name, and the flag rendered 1 or 0. -/
def logLineBody (date med_name : Str) (taken : Bool) : Str :=
  date ++ [','] ++ med_name ++ [','] ++ (if taken then str "1" else str "0")

/-- One logs-file record as written by `save_logs`. -/
def logLine (date med_name : Str) (taken : Bool) : Str :=
  logLineBody date med_name taken ++ ['\n']

/-- `save_logs`: the full contents written to the logs file, one line per
(date, medication) pair, grouped by log. -/
def save_logs (t : MedicationTracker) : Str :=
  (t.daily_logs.map
    (fun p => (p.2.taken.map (fun q => logLine p.2.date q.1 q.2)).flatten)).flatten

/-! ## Persistence: line splitting (BufRead::lines) and field splitting -/

/-- Split a character sequence at every occurrence of the separator
(Rust `str::split`): always at least one piece, empty pieces preserved. -/
def splitOnChar (sep : Char) : Str → List Str
  | [] => [[]]
  | c :: cs =>
    let r := splitOnChar sep cs
    if c = sep then [] :: r
    else
      match r with
      | [] => [[c]]
      | p :: ps => (c :: p) :: ps

/-- Drop one carriage return at the end of a newline-terminated line
(Rust `BufRead::lines` CRLF handling). -/
def stripCR (l : Str) : Str :=
  if l.getLast? = some '\r' then l.dropLast else l

/-- `BufRead::lines`: newline-separated pieces, each newline-terminated piece
with a trailing carriage return stripped; a final unterminated piece is kept
as is, and a trailing newline produces no extra empty line. -/
def fileLines (s : Str) : List Str :=
  let ps := splitOnChar '\n' s
  ps.dropLast.map stripCR ++
    (match ps.getLast? with
     | some [] => []
     | some l => [l]
     | none => [])

/-! ## Persistence: loaders -/

/-- One step of `load_data`: a line with exactly five comma-separated fields
is inserted as a medication (unparsable counts coerced to zero); any other
line is skipped. -/
def loadDataLine (t : MedicationTracker) (line : Str) : MedicationTracker :=
  let parts := splitOnChar ',' line
  if parts.length = 5 then
    let med : Medication :=
      { name := parts.getD 0 [],
        dosage := parts.getD 1 [],
        time_of_day := parts.getD 2 [],
        current_count := (parseU32 (parts.getD 3 [])).getD 0,
        total_prescribed := (parseU32 (parts.getD 4 [])).getD 0 }
    { t with medications := alistInsert t.medications med.name med }
  else t

/-- `load_data` over given file contents. -/
def load_data (t : MedicationTracker) (text : Str) : MedicationTracker :=
  (fileLines text).foldl loadDataLine t

/-- One step of `load_logs`: a line with exactly three comma-separated fields
records a taken flag (true iff the third field is exactly the character 1) in
the lazily created log for the first field; any other line is skipped. -/
def loadLogsLine (t : MedicationTracker) (line : Str) : MedicationTracker :=
  let parts := splitOnChar ',' line
  if parts.length = 3 then
    let date := parts.getD 0 []
    let logs0 :=
      if alistContains t.daily_logs date then t.daily_logs
      else alistInsert t.daily_logs date { date := date, taken := [] }
    let logs := alistModify logs0 date
      (fun log =>
        { log with taken :=
            alistInsert log.taken (parts.getD 1 []) (parts.getD 2 [] == str "1") })
    { t with daily_logs := logs }
  else t

/-- `load_logs` over given file contents. -/
def load_logs (t : MedicationTracker) (text : Str) : MedicationTracker :=
  (fileLines text).foldl loadLogsLine t

/-- `MedicationTracker::new` reloading saved state: a fresh tracker that loads
the saved medications file and then the saved logs file of a given tracker. -/
def reloadTracker (t : MedicationTracker) : MedicationTracker :=
  load_logs (load_data (emptyTracker t.patient_name) (save_data t)) (save_logs t)

/-- `list_medications`: one display line per medication. -/
def list_medications (t : MedicationTracker) : List Str :=
  t.medications.map
    (fun p => p.2.name ++ str " - " ++ p.2.dosage ++ str " at " ++
      p.2.time_of_day ++ str " (" ++ natToStr p.2.current_count ++ str " left)")

/-! ## Weekly summary -/

/-- The day labels of the weekly summary row. -/
def dayNames : List Str :=
  [str "Mon", str "Tue", str "Wed", str "Thu", str "Fri", str "Sat", str "Sun"]

/-- The synthesized per-day date key: the week start, a hyphen, and the literal
day index (no calendar arithmetic). -/
def weekDate (week_start : Str) (i : Nat) : Str :=
  week_start ++ ['-'] ++ natToStr i

/-- The adherence percentage string: tabulation of the source's 32-bit float
computation (taken_count / 7.0) * 100.0 rendered with one decimal place, for
the only possible taken counts 0 through 7.  Only the exact zero entry is
relied on by the theorems below; the other entries record the rounded values
of the float computation. -/
def adherencePctStr : Nat → Str
  | 0 => str "0.0"
  | 1 => str "14.3"
  | 2 => str "28.6"
  | 3 => str "42.9"
  | 4 => str "57.1"
  | 5 => str "71.4"
  | 6 => str "85.7"
  | _ => str "100.0"

/-- The per-medication section of the weekly summary: the single loop of the
source both appends one day-name-and-symbol cell per day and counts the taken
days, then the adherence and remaining lines follow. -/
def weeklyMedSection (t : MedicationTracker) (week_start : Str) (name : Str)
    (med : Medication) : Str :=
  let row := (List.range 7).foldl
    (fun acc i =>
      (acc.1 ++ dayNames.getD i [] ++ [' '] ++
        (if takenFlag t (weekDate week_start i) name then str "[X] "
         else str "[ ] "),
       if takenFlag t (weekDate week_start i) name then acc.2 + 1 else acc.2))
    ([], 0)
  str "MEDICATION: " ++ name ++ str " (" ++ med.dosage ++ str ")\n" ++
    str "Daily Record: " ++ row.1 ++
    str "\nAdherence: " ++ natToStr row.2 ++ str "/7 days (" ++
    adherencePctStr row.2 ++ str "%)\n" ++
    str "Remaining: " ++ natToStr med.current_count ++ str " of " ++
    natToStr med.total_prescribed ++ str " doses\n\n"

/-- The embedding of `Vec::join` on strings. -/
def joinSep (sep : Str) : List Str → Str
  | [] => []
  | [x] => x
  | x :: y :: xs => x ++ sep ++ joinSep sep (y :: xs)

/-- One line of the daily overview section of the weekly summary. -/
def weeklyOverviewLine (t : MedicationTracker) (week_start : Str) (i : Nat) : Str :=
  let date := weekDate week_start i
  let total_meds := t.medications.length
  let taken_meds :=
    match alistLookup t.daily_logs date with
    | some log => (log.taken.filter (fun q => q.2)).length
    | none => 0
  let base := dayNames.getD i [] ++ str ": " ++ natToStr taken_meds ++
    str "/" ++ natToStr total_meds ++ str " medications taken"
  let base2 :=
    if taken_meds < total_meds then
      if (get_missed_medications t date).isEmpty then base
      else base ++ str " - MISSED: " ++ joinSep (str ", ") (get_missed_medications t date)
    else base
  base2 ++ ['\n']

/-- `generate_weekly_summary`: header, one section per medication, then the
daily overview and the closing rule. -/
def generate_weekly_summary (t : MedicationTracker) (week_start : Str) : Str :=
  str "\n========== WEEKLY SUMMARY FOR " ++ t.patient_name ++ str " ==========\n" ++
    str "Week starting: " ++ week_start ++ str "\n\n" ++
    (t.medications.foldl (fun acc p => acc ++ weeklyMedSection t week_start p.1 p.2) []) ++
    str "DAILY OVERVIEW:\n" ++
    ((List.range 7).foldl (fun acc i => acc ++ weeklyOverviewLine t week_start i) []) ++
    str "\n==========================================\n"

/-! ## Store invariants and cleanliness (for the persistence round trip) -/

/-- Invariants every reachable tracker satisfies by construction: unique map
keys (a `HashMap` property), each medication stored under its own name, each
log stored under its own date, unique names inside each log. -/
def trackerWF (t : MedicationTracker) : Prop :=
  (t.medications.map Prod.fst).Nodup ∧
  (∀ p ∈ t.medications, p.2.name = p.1) ∧
  (t.daily_logs.map Prod.fst).Nodup ∧
  (∀ p ∈ t.daily_logs, p.2.date = p.1 ∧ (p.2.taken.map Prod.fst).Nodup)

/-- A string free of both delimiter characters of the persistence format. -/
def cleanStr (s : Str) : Prop := ',' ∉ s ∧ '\n' ∉ s

/-- The persisted text fields of the store are delimiter-free, and the counts
are in u32 range (automatic in the source's types). -/
def cleanTracker (t : MedicationTracker) : Prop :=
  (∀ p ∈ t.medications, cleanStr p.2.name ∧ cleanStr p.2.dosage ∧
    cleanStr p.2.time_of_day ∧ p.2.current_count < 2 ^ 32 ∧
    p.2.total_prescribed < 2 ^ 32) ∧
  (∀ p ∈ t.daily_logs, cleanStr p.2.date ∧ ∀ q ∈ p.2.taken, cleanStr q.1)

/-- The (date, name, flag) triples of the logs in file order. -/
def logPairs (logs : List (Str × DailyLog)) : List (Str × Str × Bool) :=
  (logs.map (fun p => p.2.taken.map (fun q => (p.2.date, q.1, q.2)))).flatten

/-- A store whose only medication has a newline (but no comma) in its name:
the round-trip counterexample input. -/
def newlineTracker : MedicationTracker :=
  { medications :=
      [(str "a" ++ '\n' :: str "b",
        { name := str "a" ++ '\n' :: str "b", dosage := str "d",
          time_of_day := str "t", current_count := 1, total_prescribed := 1 })],
    daily_logs := [], patient_name := str "p" }

/-- A small well-formed, delimiter-free store used to witness the round trip. -/
def cleanSample : MedicationTracker :=
  { medications :=
      [(str "Aspirin",
        { name := str "Aspirin", dosage := str "1 pill",
          time_of_day := str "Morning", current_count := 29,
          total_prescribed := 30 }),
       (str "Ibu",
        { name := str "Ibu", dosage := str "5ml",
          time_of_day := str "Evening", current_count := 7,
          total_prescribed := 10 })],
    daily_logs :=
      [(str "D1",
        { date := str "D1",
          taken := [(str "Aspirin", true), (str "Ibu", false)] }),
       (str "D2", { date := str "D2", taken := [(str "Ibu", true)] })],
    patient_name := str "pat" }

/-! ## Association-list lemmas -/

theorem alistLookup_insert_self {α : Type} (m : List (Str × α)) (k : Str) (v : α) :
    alistLookup (alistInsert m k v) k = some v := by
  induction m with
  | nil => simp [alistInsert, alistLookup]
  | cons p rest ih =>
    obtain ⟨k', v'⟩ := p
    by_cases h : k' = k
    · simp [alistInsert, alistLookup, h]
    · simp [alistInsert, alistLookup, h, ih]

theorem alistLookup_insert_ne {α : Type} (m : List (Str × α)) (k k2 : Str) (v : α)
    (h : k2 ≠ k) : alistLookup (alistInsert m k v) k2 = alistLookup m k2 := by
  have h' : k ≠ k2 := Ne.symm h
  induction m with
  | nil => simp [alistInsert, alistLookup, h']
  | cons p rest ih =>
    obtain ⟨k', v'⟩ := p
    by_cases hk : k' = k
    · subst hk
      simp [alistInsert, alistLookup, h']
    · by_cases hk2 : k' = k2 <;> simp [alistInsert, alistLookup, hk, hk2, ih, h]

theorem alistLookup_modify_self {α : Type} (m : List (Str × α)) (k : Str) (f : α → α) :
    alistLookup (alistModify m k f) k = (alistLookup m k).map f := by
  induction m with
  | nil => simp [alistModify, alistLookup]
  | cons p rest ih =>
    obtain ⟨k', v'⟩ := p
    by_cases h : k' = k
    · simp [alistModify, alistLookup, h]
    · simp [alistModify, alistLookup, h, ih]

theorem alistLookup_modify_ne {α : Type} (m : List (Str × α)) (k k2 : Str) (f : α → α)
    (h : k2 ≠ k) : alistLookup (alistModify m k f) k2 = alistLookup m k2 := by
  have h' : k ≠ k2 := Ne.symm h
  induction m with
  | nil => simp [alistModify, alistLookup]
  | cons p rest ih =>
    obtain ⟨k', v'⟩ := p
    by_cases hk : k' = k
    · subst hk
      simp [alistModify, alistLookup, h']
    · by_cases hk2 : k' = k2 <;> simp [alistModify, alistLookup, hk, hk2, ih, h]

theorem alistLookup_append {α : Type} (l1 l2 : List (Str × α)) (k : Str) :
    alistLookup (l1 ++ l2) k =
      match alistLookup l1 k with
      | some v => some v
      | none => alistLookup l2 k := by
  induction l1 with
  | nil => simp [alistLookup]
  | cons p rest ih =>
    obtain ⟨k', v'⟩ := p
    by_cases h : k' = k <;> simp [alistLookup, h, ih]

theorem alistInsert_of_not_contains {α : Type} (m : List (Str × α)) (k : Str) (v : α)
    (h : alistContains m k = false) : alistInsert m k v = m ++ [(k, v)] := by
  induction m with
  | nil => simp [alistInsert]
  | cons p rest ih =>
    obtain ⟨k', v'⟩ := p
    by_cases hk : k' = k
    · subst hk
      simp [alistContains, alistLookup] at h
    · simp [alistContains, alistLookup, hk] at h
      simp [alistInsert, hk, ih (by simp [alistContains, h])]

theorem alistModify_append_of_not_contains {α : Type} (l1 l2 : List (Str × α))
    (k : Str) (f : α → α) (h : alistContains l1 k = false) :
    alistModify (l1 ++ l2) k f = l1 ++ alistModify l2 k f := by
  induction l1 with
  | nil => simp
  | cons p rest ih =>
    obtain ⟨k', v'⟩ := p
    by_cases hk : k' = k
    · subst hk
      simp [alistContains, alistLookup] at h
    · simp [alistContains, alistLookup, hk] at h
      simp [alistModify, hk, ih (by simp [alistContains, h])]

theorem alistContains_iff {α : Type} (m : List (Str × α)) (k : Str) :
    alistContains m k = true ↔ ∃ v, alistLookup m k = some v := by
  simp [alistContains, Option.isSome_iff_exists]

/-! ## C8: add_medication -/

/-- C8: add_medication inserts (or silently overwrites) the medication keyed
by the given name, and immediately afterwards that medication's current_count
and total_prescribed both equal the given quantity (all five fields are as
supplied). -/
theorem add_medication_spec (t : MedicationTracker) (name dosage time_of_day : Str)
    (count : Nat) :
    alistLookup (add_medication t name dosage time_of_day count).medications name
      = some { name := name, dosage := dosage, time_of_day := time_of_day,
               current_count := count, total_prescribed := count } := by
  simp [add_medication, alistLookup_insert_self]

/-! ## C2: mark_taken count behavior -/

theorem mark_taken_lookup_self (t : MedicationTracker) (n d : Str) (b : Bool)
    (m : Medication) (h : alistLookup t.medications n = some m) :
    alistLookup (mark_taken t n d b).1.medications n
      = some (if b then { m with current_count := m.current_count - 1 } else m) := by
  have hc : alistContains t.medications n = true := by
    simp [alistContains, h]
  cases b with
  | false => simp [mark_taken, hc, h]
  | true =>
    simp only [mark_taken, hc, if_true, if_pos]
    rw [alistLookup_modify_self, h]
    obtain ⟨nm, dos, tod, cc, tp⟩ := m
    cases cc <;> simp

/-- C2: for a known medication, marking taken decrements current_count by one
(floored at zero, never an error), it does so again on a repeated true mark
for the same date, and marking missed never changes current_count, even after
a previous true mark for that date. -/
theorem mark_taken_count_spec (t : MedicationTracker) (n d : Str) (m : Medication)
    (h : alistLookup t.medications n = some m) :
    (∀ b, (mark_taken t n d b).2 = Except.ok ()) ∧
    alistLookup (mark_taken t n d true).1.medications n
      = some { m with current_count := m.current_count - 1 } ∧
    alistLookup (mark_taken t n d false).1.medications n = some m ∧
    alistLookup (mark_taken (mark_taken t n d true).1 n d true).1.medications n
      = some { m with current_count := m.current_count - 2 } ∧
    alistLookup (mark_taken (mark_taken t n d true).1 n d false).1.medications n
      = some { m with current_count := m.current_count - 1 } := by
  have hc : alistContains t.medications n = true := by
    simp [alistContains, h]
  have h1 := mark_taken_lookup_self t n d true m h
  simp only [if_true] at h1
  refine ⟨fun b => by cases b <;> simp [mark_taken, hc], h1,
    by simpa using mark_taken_lookup_self t n d false m h, ?_, ?_⟩
  · have h2 := mark_taken_lookup_self (mark_taken t n d true).1 n d true _ h1
    simp only [if_true] at h2
    rw [h2]
    obtain ⟨nm, dos, tod, cc, tp⟩ := m
    simp only [Option.some.injEq, Medication.mk.injEq, and_true, true_and]
    omega
  · simpa using mark_taken_lookup_self (mark_taken t n d true).1 n d false _ h1

/-- Witness for C2 at a concrete store. -/
theorem mark_taken_count_spec_witness :
    alistLookup
        (mark_taken
          { medications :=
              [(str "Aspirin",
                { name := str "Aspirin", dosage := str "1 pill",
                  time_of_day := str "Morning", current_count := 30,
                  total_prescribed := 30 })],
            daily_logs := [], patient_name := str "pat" }
          (str "Aspirin") (str "D1") true).1.medications (str "Aspirin")
      = some { name := str "Aspirin", dosage := str "1 pill",
               time_of_day := str "Morning", current_count := 29,
               total_prescribed := 30 } :=
  (mark_taken_count_spec
    { medications :=
        [(str "Aspirin",
          { name := str "Aspirin", dosage := str "1 pill",
            time_of_day := str "Morning", current_count := 30,
            total_prescribed := 30 })],
      daily_logs := [], patient_name := str "pat" }
    (str "Aspirin") (str "D1")
    { name := str "Aspirin", dosage := str "1 pill",
      time_of_day := str "Morning", current_count := 30,
      total_prescribed := 30 } (by decide)).2.1

/-! ## C3: not-found errors leave the state unchanged -/

/-- C3: for a name that is not a key of the medications map, mark_taken and
refill_medication both return the not-found error and leave the entire store
exactly unchanged. -/
theorem not_found_atomic (t : MedicationTracker) (n d : Str) (b : Bool) (amount : Nat)
    (h : alistLookup t.medications n = none) :
    mark_taken t n d b = (t, Except.error (str "Medication not found")) ∧
    refill_medication t n amount = (t, Except.error (str "Medication not found")) := by
  constructor
  · simp [mark_taken, alistContains, h]
  · simp [refill_medication, h]

/-- Witness for C3 at a concrete store. -/
theorem not_found_atomic_witness :
    mark_taken (emptyTracker (str "pat")) (str "Ghost") (str "D1") true
      = (emptyTracker (str "pat"), Except.error (str "Medication not found")) ∧
    refill_medication (emptyTracker (str "pat")) (str "Ghost") 5
      = (emptyTracker (str "pat"), Except.error (str "Medication not found")) :=
  not_found_atomic (emptyTracker (str "pat")) (str "Ghost") (str "D1") true 5 (by decide)

/-! ## C4: refill_medication -/

/-- C4: for a known medication and an amount for which neither count
overflows u32 (the source's counts are u32, so past that bound the program
wraps or aborts rather than increasing), refill_medication adds the amount to
both current_count and total_prescribed and leaves name, dosage and
time_of_day unchanged (and succeeds). -/
theorem refill_spec (t : MedicationTracker) (n : Str) (m : Medication) (amount : Nat)
    (h : alistLookup t.medications n = some m)
    (hcc : m.current_count + amount < 2 ^ 32)
    (htp : m.total_prescribed + amount < 2 ^ 32) :
    (refill_medication t n amount).2 = Except.ok () ∧
    alistLookup (refill_medication t n amount).1.medications n
      = some { m with current_count := m.current_count + amount,
                      total_prescribed := m.total_prescribed + amount } := by
  refine ⟨by simp [refill_medication, h], ?_⟩
  simp only [refill_medication, h]
  rw [alistLookup_modify_self, h]
  have h1 : (m.current_count + amount) % 2 ^ 32 = m.current_count + amount :=
    Nat.mod_eq_of_lt hcc
  have h2 : (m.total_prescribed + amount) % 2 ^ 32 = m.total_prescribed + amount :=
    Nat.mod_eq_of_lt htp
  simp [h1, h2]
  omega

/-- Witness for C4 at a concrete store. -/
theorem refill_spec_witness :
    alistLookup
        (refill_medication
          { medications :=
              [(str "Ibu",
                { name := str "Ibu", dosage := str "5ml",
                  time_of_day := str "Evening", current_count := 7,
                  total_prescribed := 10 })],
            daily_logs := [], patient_name := str "pat" }
          (str "Ibu") 12).1.medications (str "Ibu")
      = some { name := str "Ibu", dosage := str "5ml",
               time_of_day := str "Evening", current_count := 19,
               total_prescribed := 22 } :=
  (refill_spec
    { medications :=
        [(str "Ibu",
          { name := str "Ibu", dosage := str "5ml",
            time_of_day := str "Evening", current_count := 7,
            total_prescribed := 10 })],
      daily_logs := [], patient_name := str "pat" }
    (str "Ibu")
    { name := str "Ibu", dosage := str "5ml",
      time_of_day := str "Evening", current_count := 7,
      total_prescribed := 10 } 12 (by decide) (by decide) (by decide)).2

/-! ## C10: frame property of mark_taken -/

/-- C10: for a known medication, mark_taken leaves every other medication
unchanged, preserves the marked medication's name, dosage, time_of_day and
total_prescribed, leaves every log for another date unchanged, leaves the
taken entry of every other (date, name) pair unchanged, and does not touch
the patient name. -/
theorem mark_taken_frame (t : MedicationTracker) (n d : Str) (v : Bool)
    (m : Medication) (h : alistLookup t.medications n = some m) :
    (∀ n2, n2 ≠ n →
      alistLookup (mark_taken t n d v).1.medications n2
        = alistLookup t.medications n2) ∧
    (∃ m2, alistLookup (mark_taken t n d v).1.medications n = some m2 ∧
      m2.name = m.name ∧ m2.dosage = m.dosage ∧
      m2.time_of_day = m.time_of_day ∧
      m2.total_prescribed = m.total_prescribed) ∧
    (∀ d2, d2 ≠ d →
      alistLookup (mark_taken t n d v).1.daily_logs d2
        = alistLookup t.daily_logs d2) ∧
    (∀ d2 n2, d2 ≠ d ∨ n2 ≠ n →
      takenEntry (mark_taken t n d v).1 d2 n2 = takenEntry t d2 n2) ∧
    (mark_taken t n d v).1.patient_name = t.patient_name := by
  have hc : alistContains t.medications n = true := by simp [alistContains, h]
  have hlogs : ∀ d2, d2 ≠ d →
      alistLookup (mark_taken t n d v).1.daily_logs d2
        = alistLookup t.daily_logs d2 := by
    intro d2 hd2
    by_cases hcd : alistContains t.daily_logs d
    · simp only [mark_taken, hc, if_true, hcd]
      exact alistLookup_modify_ne _ _ _ _ hd2
    · simp only [mark_taken, hc, if_true, hcd, Bool.false_eq_true, if_false]
      rw [alistLookup_modify_ne _ _ _ _ hd2]
      exact alistLookup_insert_ne _ _ _ _ hd2
  refine ⟨?_, ?_, hlogs, ?_, ?_⟩
  · intro n2 hn2
    cases v with
    | false => simp [mark_taken, hc]
    | true =>
      simp only [mark_taken, hc, if_true]
      exact alistLookup_modify_ne _ _ _ _ hn2
  · refine ⟨if v then { m with current_count := m.current_count - 1 } else m,
      mark_taken_lookup_self t n d v m h, ?_⟩
    cases v <;> simp
  · intro d2 n2 hor
    by_cases hd2 : d2 = d
    · subst hd2
      have hn2 : n2 ≠ n := by tauto
      unfold takenEntry
      by_cases hcd : alistContains t.daily_logs d2
      · obtain ⟨log0, hlog0⟩ := (alistContains_iff _ _).mp hcd
        simp only [mark_taken, hc, if_true, hcd]
        rw [alistLookup_modify_self, hlog0]
        simp [alistLookup_insert_ne _ _ _ _ hn2]
      · have hnone : alistLookup t.daily_logs d2 = none := by
          rcases hh : alistLookup t.daily_logs d2 with _ | w
          · rfl
          · simp [alistContains, hh] at hcd
        simp only [mark_taken, hc, if_true, hcd, Bool.false_eq_true, if_false]
        rw [alistLookup_modify_self, alistLookup_insert_self]
        simp [hnone, alistLookup, Ne.symm hn2]
    · unfold takenEntry
      rw [hlogs d2 hd2]
  · cases v <;> simp [mark_taken, hc]

/-- Witness for C10 at a concrete store. -/
theorem mark_taken_frame_witness :
    takenEntry
        (mark_taken
          { medications :=
              [(str "Aspirin",
                { name := str "Aspirin", dosage := str "1 pill",
                  time_of_day := str "Morning", current_count := 30,
                  total_prescribed := 30 })],
            daily_logs :=
              [(str "D0",
                { date := str "D0", taken := [(str "Aspirin", true)] })],
            patient_name := str "pat" }
          (str "Aspirin") (str "D1") true).1 (str "D0") (str "Aspirin")
      = takenEntry
          { medications :=
              [(str "Aspirin",
                { name := str "Aspirin", dosage := str "1 pill",
                  time_of_day := str "Morning", current_count := 30,
                  total_prescribed := 30 })],
            daily_logs :=
              [(str "D0",
                { date := str "D0", taken := [(str "Aspirin", true)] })],
            patient_name := str "pat" }
          (str "D0") (str "Aspirin") :=
  (mark_taken_frame
    { medications :=
        [(str "Aspirin",
          { name := str "Aspirin", dosage := str "1 pill",
            time_of_day := str "Morning", current_count := 30,
            total_prescribed := 30 })],
      daily_logs :=
        [(str "D0", { date := str "D0", taken := [(str "Aspirin", true)] })],
      patient_name := str "pat" }
    (str "Aspirin") (str "D1") true
    { name := str "Aspirin", dosage := str "1 pill",
      time_of_day := str "Morning", current_count := 30,
      total_prescribed := 30 }
    (by decide)).2.2.2.1 (str "D0") (str "Aspirin") (Or.inl (by decide))

/-! ## C6: get_missed_medications -/

theorem takenFlag_eq_false_iff (t : MedicationTracker) (d n : Str) :
    takenFlag t d n = false ↔
      (takenEntry t d n = some false ∨ takenEntry t d n = none) := by
  unfold takenFlag
  rcases h : takenEntry t d n with _ | b
  · simp
  · cases b <;> simp

/-- C6: the missed list for a date contains, as a set, exactly the strings
built from name and time_of_day of the medications whose taken entry for the
date is false or absent. -/
theorem get_missed_spec (t : MedicationTracker) (d : Str) (s : Str) :
    s ∈ get_missed_medications t d ↔
      ∃ n med, (n, med) ∈ t.medications ∧
        (takenEntry t d n = some false ∨ takenEntry t d n = none) ∧
        s = n ++ str " at " ++ med.time_of_day := by
  simp only [get_missed_medications, List.mem_filterMap]
  constructor
  · rintro ⟨⟨n, med⟩, hmem, hf⟩
    by_cases ht : takenFlag t d n
    · simp [ht] at hf
    · rw [Bool.not_eq_true] at ht
      simp only [ht, Bool.false_eq_true, if_false, Option.some.injEq] at hf
      exact ⟨n, med, hmem, (takenFlag_eq_false_iff t d n).mp ht, hf.symm⟩
  · rintro ⟨n, med, hmem, hent, hs⟩
    refine ⟨(n, med), hmem, ?_⟩
    have ht : takenFlag t d n = false := (takenFlag_eq_false_iff t d n).mpr hent
    simp [ht, hs]

/-! ## C5: check_today_status -/

theorem strLe_refl (s : Str) : strLe s s = true := by
  induction s with
  | nil => simp [strLe]
  | cons c cs ih => simp [strLe, ih]

theorem strLe_total : ∀ (a b : Str), (strLe a b || strLe b a) = true
  | [], _ => by simp [strLe]
  | _ :: _, [] => by simp [strLe]
  | a :: as, b :: bs => by
    by_cases h1 : a < b
    · simp [strLe, h1]
    · by_cases h2 : a = b
      · subst h2
        have := strLe_total as bs
        simp only [strLe, lt_irrefl, if_false, if_pos rfl]
        simpa using this
      · have h3 : b < a := by
          rcases lt_trichotomy a b with h | h | h
          · exact absurd h h1
          · exact absurd h h2
          · exact h
        simp [strLe, h1, h2, h3]

theorem strLe_trans : ∀ (a b c : Str),
    strLe a b = true → strLe b c = true → strLe a c = true
  | [], _, _, _, _ => by simp [strLe]
  | _ :: _, [], _, hab, _ => by simp [strLe] at hab
  | _ :: _, _ :: _, [], _, hbc => by simp [strLe] at hbc
  | a :: as, b :: bs, c :: cs, hab, hbc => by
    simp only [strLe] at hab hbc ⊢
    by_cases h1 : a < b
    · by_cases h2 : b < c
      · simp [lt_trans h1 h2]
      · rw [if_neg h2] at hbc
        by_cases h3 : b = c
        · subst h3
          simp [h1]
        · rw [if_neg h3] at hbc
          exact absurd hbc (by simp)
    · rw [if_neg h1] at hab
      by_cases h4 : a = b
      · subst h4
        rw [if_pos rfl] at hab
        by_cases h2 : a < c
        · simp [h2]
        · rw [if_neg h2] at hbc ⊢
          by_cases h3 : a = c
          · rw [if_pos h3] at hbc ⊢
            exact strLe_trans as bs cs hab hbc
          · rw [if_neg h3] at hbc
            exact absurd hbc (by simp)
      · rw [if_neg h4] at hab
        exact absurd hab (by simp)

theorem takenFlag_eq_true_iff (t : MedicationTracker) (d n : Str) :
    takenFlag t d n = true ↔
      ∃ log, alistLookup t.daily_logs d = some log ∧
        alistLookup log.taken n = some true := by
  unfold takenFlag takenEntry
  rcases h : alistLookup t.daily_logs d with _ | log
  · simp
  · rcases h2 : alistLookup log.taken n with _ | b
    · simp [h2]
    · cases b <;> simp [h2]

/-- C5: check_today_status returns one tuple per medication (same length as
the store, membership exactly the per-medication tuples), with taken true iff
a log exists for the date whose entry for the name is true, details and
reminder formatted as in the source, the output pairwise sorted by the
details string, and the sort stable (ties keep the pre-sort order, stated as
filter-equality with the unsorted tuple list on every details value). -/
theorem check_today_status_spec (t : MedicationTracker) (d : Str) :
    (check_today_status t d).length = t.medications.length ∧
    (∀ x, x ∈ check_today_status t d ↔
      ∃ n med, (n, med) ∈ t.medications ∧
        x = (n, med.dosage ++ str " (" ++ med.time_of_day ++ str ")",
             takenFlag t d n,
             if takenFlag t d n then str "Taken"
             else str "REMINDER: Take " ++ n ++ str " at " ++ med.time_of_day)) ∧
    (∀ n, takenFlag t d n = true ↔
      ∃ log, alistLookup t.daily_logs d = some log ∧
        alistLookup log.taken n = some true) ∧
    (check_today_status t d).Pairwise (fun a b => strLe a.2.1 b.2.1 = true) ∧
    (∀ k, (check_today_status t d).filter (fun x => x.2.1 == k)
        = (statusUnsorted t d).filter (fun x => x.2.1 == k)) := by
  have htrans : ∀ (a b c : Str × Str × Bool × Str),
      strLe a.2.1 b.2.1 = true → strLe b.2.1 c.2.1 = true →
      strLe a.2.1 c.2.1 = true := fun a b c => strLe_trans a.2.1 b.2.1 c.2.1
  have htotal : ∀ (a b : Str × Str × Bool × Str),
      (strLe a.2.1 b.2.1 || strLe b.2.1 a.2.1) = true :=
    fun a b => strLe_total a.2.1 b.2.1
  refine ⟨?_, ?_, fun n => takenFlag_eq_true_iff t d n, ?_, ?_⟩
  · rw [check_today_status, (List.mergeSort_perm _ _).length_eq]
    simp [statusUnsorted]
  · intro x
    rw [check_today_status, List.mem_mergeSort]
    simp only [statusUnsorted, List.mem_map]
    constructor
    · rintro ⟨⟨n, med⟩, hmem, hx⟩
      refine ⟨n, med, hmem, ?_⟩
      rw [← hx]
      unfold statusTuple
      cases h : takenFlag t d n <;> simp [h]
    · rintro ⟨n, med, hmem, hx⟩
      refine ⟨(n, med), hmem, ?_⟩
      rw [hx]
      unfold statusTuple
      cases h : takenFlag t d n <;> simp [h]
  · exact List.sorted_mergeSort htrans htotal (statusUnsorted t d)
  · intro k
    have hsub : ((statusUnsorted t d).filter (fun x => x.2.1 == k)).Sublist
        (check_today_status t d) := by
      apply List.sublist_mergeSort htrans htotal
      · apply List.pairwise_of_forall_mem_list
        intro a ha b hb
        have hak : a.2.1 = k := by
          have := List.of_mem_filter ha
          simpa using this
        have hbk : b.2.1 = k := by
          have := List.of_mem_filter hb
          simpa using this
        rw [hak, hbk]
        exact strLe_refl k
      · exact List.filter_sublist _
    have hall : ((statusUnsorted t d).filter (fun x => x.2.1 == k)).filter
        (fun x => x.2.1 == k) = (statusUnsorted t d).filter (fun x => x.2.1 == k) := by
      rw [List.filter_filter]
      simp
    have hsub2 : ((statusUnsorted t d).filter (fun x => x.2.1 == k)).Sublist
        ((check_today_status t d).filter (fun x => x.2.1 == k)) := by
      have := List.Sublist.filter (fun x => x.2.1 == k) hsub
      rwa [hall] at this
    have hperm : ((check_today_status t d).filter (fun x => x.2.1 == k)).Perm
        ((statusUnsorted t d).filter (fun x => x.2.1 == k)) :=
      (List.mergeSort_perm (statusUnsorted t d) _).filter _
    exact (hsub2.eq_of_length hperm.length_eq.symm).symm

/-! ## C9: the loaders are total and lenient -/

theorem loadLogsLine_entry (t : MedicationTracker) (line : Str)
    (h : (splitOnChar ',' line).length = 3) :
    takenEntry (loadLogsLine t line) ((splitOnChar ',' line).getD 0 [])
        ((splitOnChar ',' line).getD 1 [])
      = some ((splitOnChar ',' line).getD 2 [] == str "1") := by
  unfold loadLogsLine takenEntry
  rw [if_pos h]
  by_cases hcd : alistContains t.daily_logs ((splitOnChar ',' line).getD 0 [])
  · obtain ⟨log0, hlog0⟩ := (alistContains_iff _ _).mp hcd
    simp only [hcd, if_true]
    rw [alistLookup_modify_self, hlog0]
    simp [alistLookup_insert_self]
  · simp only [hcd, Bool.false_eq_true, if_false]
    rw [alistLookup_modify_self, alistLookup_insert_self]
    simp [alistLookup_insert_self]

/-- C9: both loaders are lenient on every line of any input: load_data skips
any line that does not split into exactly five comma-separated fields and
coerces unparsable count fields to zero, and load_logs skips any line that
does not split into exactly three fields and records a taken flag that is
true exactly when the third field is the single character 1 (the loaders are
total functions, so no input ever raises an error). -/
theorem loaders_lenient :
    (∀ t line, (splitOnChar ',' line).length ≠ 5 → loadDataLine t line = t) ∧
    (∀ t line, (splitOnChar ',' line).length ≠ 3 → loadLogsLine t line = t) ∧
    (∀ t line, (splitOnChar ',' line).length = 5 →
      ∃ med, (loadDataLine t line).medications
          = alistInsert t.medications med.name med ∧
        med.name = (splitOnChar ',' line).getD 0 [] ∧
        med.dosage = (splitOnChar ',' line).getD 1 [] ∧
        med.time_of_day = (splitOnChar ',' line).getD 2 [] ∧
        (parseU32 ((splitOnChar ',' line).getD 3 []) = none →
          med.current_count = 0) ∧
        (parseU32 ((splitOnChar ',' line).getD 4 []) = none →
          med.total_prescribed = 0) ∧
        (∀ v, parseU32 ((splitOnChar ',' line).getD 3 []) = some v →
          med.current_count = v) ∧
        (∀ v, parseU32 ((splitOnChar ',' line).getD 4 []) = some v →
          med.total_prescribed = v)) ∧
    (∀ t line, (splitOnChar ',' line).length = 3 →
      (takenEntry (loadLogsLine t line) ((splitOnChar ',' line).getD 0 [])
          ((splitOnChar ',' line).getD 1 [])
        = some true ↔ (splitOnChar ',' line).getD 2 [] = str "1")) := by
  refine ⟨?_, ?_, ?_, ?_⟩
  · intro t line h
    simp [loadDataLine, h]
  · intro t line h
    simp [loadLogsLine, h]
  · intro t line h
    refine ⟨{ name := (splitOnChar ',' line).getD 0 [],
              dosage := (splitOnChar ',' line).getD 1 [],
              time_of_day := (splitOnChar ',' line).getD 2 [],
              current_count := (parseU32 ((splitOnChar ',' line).getD 3 [])).getD 0,
              total_prescribed := (parseU32 ((splitOnChar ',' line).getD 4 [])).getD 0 },
      ?_, rfl, rfl, rfl, ?_, ?_, ?_, ?_⟩
    · simp [loadDataLine, h]
    · intro hp
      rw [List.getD_eq_getElem?_getD] at hp
      simp [hp]
    · intro hp
      rw [List.getD_eq_getElem?_getD] at hp
      simp [hp]
    · intro v hp
      rw [List.getD_eq_getElem?_getD] at hp
      simp [hp]
    · intro v hp
      rw [List.getD_eq_getElem?_getD] at hp
      simp [hp]
  · intro t line h
    rw [loadLogsLine_entry t line h]
    simp

/-- Witness for C9 at concrete malformed and well-formed lines. -/
theorem loaders_lenient_witness :
    loadDataLine (emptyTracker (str "pat")) (str "no commas here") =
      emptyTracker (str "pat") ∧
    loadLogsLine (emptyTracker (str "pat")) (str "a,b,c,d") =
      emptyTracker (str "pat") ∧
    (∃ med, (loadDataLine (emptyTracker (str "pat"))
        (str "Aspirin,1 pill,Morning,oops,30")).medications
          = alistInsert (emptyTracker (str "pat")).medications med.name med ∧
      med.name = (splitOnChar ',' (str "Aspirin,1 pill,Morning,oops,30")).getD 0 [] ∧
      med.dosage = (splitOnChar ',' (str "Aspirin,1 pill,Morning,oops,30")).getD 1 [] ∧
      med.time_of_day =
        (splitOnChar ',' (str "Aspirin,1 pill,Morning,oops,30")).getD 2 [] ∧
      (parseU32 ((splitOnChar ',' (str "Aspirin,1 pill,Morning,oops,30")).getD 3 [])
          = none → med.current_count = 0) ∧
      (parseU32 ((splitOnChar ',' (str "Aspirin,1 pill,Morning,oops,30")).getD 4 [])
          = none → med.total_prescribed = 0) ∧
      (∀ v, parseU32
          ((splitOnChar ',' (str "Aspirin,1 pill,Morning,oops,30")).getD 3 [])
          = some v → med.current_count = v) ∧
      (∀ v, parseU32
          ((splitOnChar ',' (str "Aspirin,1 pill,Morning,oops,30")).getD 4 [])
          = some v → med.total_prescribed = v)) ∧
    (takenEntry (loadLogsLine (emptyTracker (str "pat")) (str "D1,Aspirin,1"))
        ((splitOnChar ',' (str "D1,Aspirin,1")).getD 0 [])
        ((splitOnChar ',' (str "D1,Aspirin,1")).getD 1 [])
      = some true ↔ (splitOnChar ',' (str "D1,Aspirin,1")).getD 2 [] = str "1") :=
  ⟨loaders_lenient.1 (emptyTracker (str "pat")) (str "no commas here") (by decide),
   loaders_lenient.2.1 (emptyTracker (str "pat")) (str "a,b,c,d") (by decide),
   loaders_lenient.2.2.1 (emptyTracker (str "pat"))
     (str "Aspirin,1 pill,Morning,oops,30") (by decide),
   loaders_lenient.2.2.2 (emptyTracker (str "pat")) (str "D1,Aspirin,1") (by decide)⟩

/-! ## C7: weekly summary with no logged days -/

theorem foldl_append_eq_flatten {α : Type} (l : List α) (f : α → Str) (init : Str) :
    l.foldl (fun acc x => acc ++ f x) init = init ++ (l.map f).flatten := by
  induction l generalizing init with
  | nil => simp
  | cons x xs ih => simp [ih, List.append_assoc]

/-- C7: when no daily log exists for any of the seven synthesized date keys of
a week, the weekly summary's section for every medication reports a Daily
Record of seven empty boxes, an adherence line of 0 out of 7 days at 0.0
percent, and a remaining line showing the stored current_count and
total_prescribed, and that section occurs verbatim inside the generated
summary. -/
theorem weekly_summary_zero_logs (t : MedicationTracker) (ws : Str)
    (h : ∀ i, i < 7 → alistLookup t.daily_logs (weekDate ws i) = none) :
    ∀ p ∈ t.medications,
      weeklyMedSection t ws p.1 p.2 =
        str "MEDICATION: " ++ p.1 ++ str " (" ++ p.2.dosage ++
          str ")\nDaily Record: Mon [ ] Tue [ ] Wed [ ] Thu [ ] Fri [ ] Sat [ ] Sun [ ] \nAdherence: 0/7 days (0.0%)\nRemaining: " ++
          natToStr p.2.current_count ++ str " of " ++
          natToStr p.2.total_prescribed ++ str " doses\n\n" ∧
      ∃ pre post,
        generate_weekly_summary t ws = pre ++ weeklyMedSection t ws p.1 p.2 ++ post := by
  intro p hp
  have hflag : ∀ i, i < 7 → takenFlag t (weekDate ws i) p.1 = false := by
    intro i hi
    unfold takenFlag takenEntry
    rw [h i hi]
    rfl
  constructor
  · have h0 := hflag 0 (by omega)
    have h1 := hflag 1 (by omega)
    have h2 := hflag 2 (by omega)
    have h3 := hflag 3 (by omega)
    have h4 := hflag 4 (by omega)
    have h5 := hflag 5 (by omega)
    have h6 := hflag 6 (by omega)
    unfold weeklyMedSection
    rw [show List.range 7 = [0, 1, 2, 3, 4, 5, 6] from by decide]
    simp only [List.foldl_cons, List.foldl_nil, h0, h1, h2, h3, h4, h5, h6,
      Bool.false_eq_true, if_false, List.append_assoc]
    rfl
  · obtain ⟨l1, l2, hsplit⟩ := List.append_of_mem hp
    refine ⟨str "\n========== WEEKLY SUMMARY FOR " ++ t.patient_name ++
        str " ==========\n" ++ str "Week starting: " ++ ws ++ str "\n\n" ++
        (l1.map (fun q => weeklyMedSection t ws q.1 q.2)).flatten,
      (l2.map (fun q => weeklyMedSection t ws q.1 q.2)).flatten ++
        str "DAILY OVERVIEW:\n" ++
        ((List.range 7).foldl (fun acc i => acc ++ weeklyOverviewLine t ws i) []) ++
        str "\n==========================================\n", ?_⟩
    unfold generate_weekly_summary
    rw [foldl_append_eq_flatten, hsplit]
    simp [List.append_assoc]

/-- Witness for C7 at a concrete store with no logs. -/
theorem weekly_summary_zero_logs_witness :
    weeklyMedSection
        { medications :=
            [(str "Aspirin",
              { name := str "Aspirin", dosage := str "1 pill",
                time_of_day := str "Morning", current_count := 29,
                total_prescribed := 30 })],
          daily_logs := [], patient_name := str "pat" }
        (str "2024-W01") (str "Aspirin")
        { name := str "Aspirin", dosage := str "1 pill",
          time_of_day := str "Morning", current_count := 29,
          total_prescribed := 30 }
      = str "MEDICATION: " ++ str "Aspirin" ++ str " (" ++ str "1 pill" ++
          str ")\nDaily Record: Mon [ ] Tue [ ] Wed [ ] Thu [ ] Fri [ ] Sat [ ] Sun [ ] \nAdherence: 0/7 days (0.0%)\nRemaining: " ++
          natToStr 29 ++ str " of " ++ natToStr 30 ++ str " doses\n\n" :=
  (weekly_summary_zero_logs
    { medications :=
        [(str "Aspirin",
          { name := str "Aspirin", dosage := str "1 pill",
            time_of_day := str "Morning", current_count := 29,
            total_prescribed := 30 })],
      daily_logs := [], patient_name := str "pat" }
    (str "2024-W01") (by decide)
    (str "Aspirin",
      { name := str "Aspirin", dosage := str "1 pill",
        time_of_day := str "Morning", current_count := 29,
        total_prescribed := 30 })
    (by decide)).1

/-! ## Decimal rendering and parsing lemmas -/

theorem digit_char_facts : ∀ r, r < 10 →
    digitVal (Char.ofNat (48 + r)) = some r ∧
    Char.ofNat (48 + r) ≠ ',' ∧ Char.ofNat (48 + r) ≠ '\n' ∧
    Char.ofNat (48 + r) ≠ '\r' ∧ Char.ofNat (48 + r) ≠ '+' := by decide

theorem natDigitsAux_fuel (n : Nat) :
    ∀ fuel, n ≤ fuel → natDigitsAux fuel n = natDigitsAux n n := by
  induction n using Nat.strong_induction_on with
  | _ n ih =>
    match n with
    | 0 =>
      intro fuel _
      cases fuel <;> rfl
    | m + 1 =>
      intro fuel hfuel
      match fuel, hfuel with
      | f + 1, hfuel =>
        have hq : (m + 1) / 10 < m + 1 := Nat.div_lt_self (Nat.succ_pos m) (by omega)
        simp only [natDigitsAux]
        rw [ih ((m + 1) / 10) hq f (by omega), ih ((m + 1) / 10) hq m (by omega)]

theorem natDigits_succ (m : Nat) :
    natDigits (m + 1)
      = natDigits ((m + 1) / 10) ++ [Char.ofNat (48 + (m + 1) % 10)] := by
  have hq : (m + 1) / 10 < m + 1 := Nat.div_lt_self (Nat.succ_pos m) (by omega)
  unfold natDigits
  simp only [natDigitsAux]
  rw [natDigitsAux_fuel ((m + 1) / 10) m (by omega)]

theorem natDigits_mem (n : Nat) :
    ∀ c ∈ natDigits n, ∃ r, r < 10 ∧ c = Char.ofNat (48 + r) := by
  induction n using Nat.strong_induction_on with
  | _ n ih =>
    match n with
    | 0 => simp [natDigits, natDigitsAux]
    | m + 1 =>
      intro c hc
      rw [natDigits_succ] at hc
      rcases List.mem_append.mp hc with h | h
      · exact ih ((m + 1) / 10) (Nat.div_lt_self (Nat.succ_pos m) (by omega)) c h
      · simp only [List.mem_singleton] at h
        exact ⟨(m + 1) % 10, Nat.mod_lt _ (by omega), h⟩

theorem natDigits_ne_nil (n : Nat) (h : n ≠ 0) : natDigits n ≠ [] := by
  match n with
  | 0 => exact absurd rfl h
  | m + 1 =>
    rw [natDigits_succ]
    simp

theorem parseDigits_append (xs ys : Str) (acc : Nat) :
    parseDigits (xs ++ ys) acc =
      match parseDigits xs acc with
      | some a => parseDigits ys a
      | none => none := by
  induction xs generalizing acc with
  | nil => simp [parseDigits]
  | cons c cs ih =>
    simp only [List.cons_append, parseDigits]
    rcases h : digitVal c with _ | d <;> simp [h, ih]

theorem parseDigits_natDigits (n : Nat) :
    ∀ acc, parseDigits (natDigits n) acc
      = some (acc * 10 ^ (natDigits n).length + n) := by
  induction n using Nat.strong_induction_on with
  | _ n ih =>
    match n with
    | 0 => intro acc; simp [natDigits, natDigitsAux, parseDigits]
    | m + 1 =>
      intro acc
      have hq : (m + 1) / 10 < m + 1 := Nat.div_lt_self (Nat.succ_pos m) (by omega)
      have hd := (digit_char_facts ((m + 1) % 10) (Nat.mod_lt _ (by omega))).1
      rw [natDigits_succ]
      rw [parseDigits_append, ih ((m + 1) / 10) hq acc]
      simp only [parseDigits, hd, List.length_append, List.length_singleton]
      congr 1
      have hqr : 10 * ((m + 1) / 10) + (m + 1) % 10 = m + 1 := Nat.div_add_mod (m + 1) 10
      calc (acc * 10 ^ (natDigits ((m + 1) / 10)).length + (m + 1) / 10) * 10 + (m + 1) % 10
          = acc * 10 ^ ((natDigits ((m + 1) / 10)).length + 1) +
              (10 * ((m + 1) / 10) + (m + 1) % 10) := by ring
        _ = acc * 10 ^ ((natDigits ((m + 1) / 10)).length + 1) + (m + 1) := by rw [hqr]

theorem parseU32_natToStr (n : Nat) (h : n < 2 ^ 32) :
    parseU32 (natToStr n) = some n := by
  by_cases h0 : n = 0
  · subst h0
    decide
  · obtain ⟨c, cs, hc⟩ := List.exists_cons_of_ne_nil (natDigits_ne_nil n h0)
    have hcp : c ≠ '+' := by
      have hmem : c ∈ natDigits n := by rw [hc]; exact List.mem_cons_self c cs
      obtain ⟨r, hr, hcr⟩ := natDigits_mem n c hmem
      rw [hcr]
      exact (digit_char_facts r hr).2.2.2.2
    have hns : natToStr n = c :: cs := by rw [natToStr, if_neg h0, hc]
    rw [parseU32, hns]
    simp only [List.head?_cons, Option.some.injEq, hcp, if_false, if_neg (by simp : ¬(c :: cs) = [])]
    rw [← hns, natToStr, if_neg h0, parseDigits_natDigits n 0]
    have h' : n < 4294967296 := by omega
    simp [h']

theorem natToStr_no_delim (n : Nat) :
    ',' ∉ natToStr n ∧ '\n' ∉ natToStr n := by
  by_cases h0 : n = 0
  · subst h0
    decide
  · rw [natToStr, if_neg h0]
    constructor
    · intro hmem
      obtain ⟨r, hr, hcr⟩ := natDigits_mem n _ hmem
      exact (digit_char_facts r hr).2.1 hcr.symm
    · intro hmem
      obtain ⟨r, hr, hcr⟩ := natDigits_mem n _ hmem
      exact (digit_char_facts r hr).2.2.1 hcr.symm

theorem natToStr_getLast_not_cr (n : Nat) :
    (natToStr n).getLast? ≠ some '\r' := by
  by_cases h0 : n = 0
  · subst h0
    decide
  · rw [natToStr, if_neg h0]
    match n, h0 with
    | m + 1, _ =>
      rw [natDigits_succ]
      simp only [List.getLast?_concat, ne_eq, Option.some.injEq]
      intro hcr
      exact (digit_char_facts ((m + 1) % 10) (Nat.mod_lt _ (by omega))).2.2.2.1 hcr

theorem natToStr_ne_nil (n : Nat) : natToStr n ≠ [] := by
  by_cases h0 : n = 0
  · subst h0
    decide
  · rw [natToStr, if_neg h0]
    exact natDigits_ne_nil n h0

/-! ## Splitting lemmas -/

theorem splitOnChar_of_not_mem (sep : Char) (xs : Str) (h : sep ∉ xs) :
    splitOnChar sep xs = [xs] := by
  induction xs with
  | nil => rfl
  | cons c cs ih =>
    have hc : c ≠ sep := by
      intro e
      exact h (e ▸ List.mem_cons_self c cs)
    have hcs : sep ∉ cs := fun m => h (List.mem_cons_of_mem c m)
    simp [splitOnChar, hc, ih hcs]

theorem splitOnChar_append_sep (sep : Char) (xs ys : Str) (h : sep ∉ xs) :
    splitOnChar sep (xs ++ sep :: ys) = xs :: splitOnChar sep ys := by
  induction xs with
  | nil => simp [splitOnChar]
  | cons c cs ih =>
    have hc : c ≠ sep := by
      intro e
      exact h (e ▸ List.mem_cons_self c cs)
    have hcs : sep ∉ cs := fun m => h (List.mem_cons_of_mem c m)
    simp [splitOnChar, hc, ih hcs]

theorem splitOnChar_flatten_bodies (bodies : List Str)
    (h : ∀ b ∈ bodies, '\n' ∉ b) :
    splitOnChar '\n' ((bodies.map (fun b => b ++ ['\n'])).flatten)
      = bodies ++ [[]] := by
  induction bodies with
  | nil => rfl
  | cons b bs ih =>
    simp only [List.map_cons, List.flatten_cons, List.append_assoc,
      List.singleton_append]
    rw [splitOnChar_append_sep '\n' b _ (h b (List.mem_cons_self b bs))]
    rw [ih (fun x hx => h x (List.mem_cons_of_mem b hx))]
    rfl

theorem stripCR_eq_self {b : Str} (h : b.getLast? ≠ some '\r') :
    stripCR b = b := by
  unfold stripCR
  rw [if_neg h]

theorem fileLines_flatten (bodies : List Str)
    (hnl : ∀ b ∈ bodies, '\n' ∉ b) (hcr : ∀ b ∈ bodies, stripCR b = b) :
    fileLines ((bodies.map (fun b => b ++ ['\n'])).flatten) = bodies := by
  unfold fileLines
  rw [splitOnChar_flatten_bodies bodies hnl]
  dsimp only
  rw [List.getLast?_concat, List.dropLast_concat]
  show bodies.map stripCR ++ [] = bodies
  rw [List.append_nil]
  calc bodies.map stripCR = bodies.map id := List.map_congr_left hcr
    _ = bodies := List.map_id bodies

/-! ## Medications file round trip -/

theorem alistContains_eq_false_iff {α : Type} (m : List (Str × α)) (k : Str) :
    alistContains m k = false ↔ alistLookup m k = none := by
  unfold alistContains
  rcases alistLookup m k with _ | v <;> simp

theorem alistLookup_eq_none_of_not_mem {α : Type} (m : List (Str × α)) (k : Str)
    (h : k ∉ m.map Prod.fst) : alistLookup m k = none := by
  induction m with
  | nil => rfl
  | cons p rest ih =>
    have h1 : p.1 ≠ k := by
      intro e
      apply h
      rw [List.map_cons, ← e]
      exact List.Mem.head _
    have h2 : k ∉ rest.map Prod.fst := fun m2 => h (by
      rw [List.map_cons]
      exact List.Mem.tail _ m2)
    obtain ⟨k', v'⟩ := p
    simp only [alistLookup]
    rw [if_neg h1]
    exact ih h2

theorem medLineBody_split (m : Medication)
    (hn : ',' ∉ m.name) (hd : ',' ∉ m.dosage) (ht : ',' ∉ m.time_of_day) :
    splitOnChar ',' (medLineBody m)
      = [m.name, m.dosage, m.time_of_day, natToStr m.current_count,
         natToStr m.total_prescribed] := by
  unfold medLineBody
  simp only [List.append_assoc, List.singleton_append, List.cons_append,
    List.nil_append]
  rw [splitOnChar_append_sep ',' _ _ hn,
      splitOnChar_append_sep ',' _ _ hd,
      splitOnChar_append_sep ',' _ _ ht,
      splitOnChar_append_sep ',' _ _ (natToStr_no_delim m.current_count).1,
      splitOnChar_of_not_mem ',' _ (natToStr_no_delim m.total_prescribed).1]

theorem medLineBody_no_newline (m : Medication)
    (hn : '\n' ∉ m.name) (hd : '\n' ∉ m.dosage) (ht : '\n' ∉ m.time_of_day) :
    '\n' ∉ medLineBody m := by
  have hcomma : ('\n' : Char) ≠ ',' := by decide
  unfold medLineBody
  simp [List.mem_append, hn, hd, ht, hcomma,
    (natToStr_no_delim m.current_count).2, (natToStr_no_delim m.total_prescribed).2]

theorem medLineBody_stripCR (m : Medication) :
    stripCR (medLineBody m) = medLineBody m := by
  apply stripCR_eq_self
  unfold medLineBody
  simp only [List.append_assoc, List.getLast?_append]
  rcases hh : (natToStr m.total_prescribed).getLast? with _ | c
  · exact absurd (List.getLast?_eq_none_iff.mp hh) (natToStr_ne_nil _)
  · have hcr := natToStr_getLast_not_cr m.total_prescribed
    rw [hh] at hcr
    simp only [hh, Option.or_some]
    exact hcr

theorem loadDataLine_medLineBody (t : MedicationTracker) (m : Medication)
    (hn : ',' ∉ m.name) (hd : ',' ∉ m.dosage) (ht : ',' ∉ m.time_of_day)
    (hcc : m.current_count < 2 ^ 32) (htp : m.total_prescribed < 2 ^ 32) :
    loadDataLine t (medLineBody m)
      = { t with medications := alistInsert t.medications m.name m } := by
  unfold loadDataLine
  rw [medLineBody_split m hn hd ht]
  simp [List.getD, parseU32_natToStr _ hcc, parseU32_natToStr _ htp]

theorem foldl_loadDataLine (l : List (Str × Medication)) :
    ∀ (t : MedicationTracker),
    (∀ p ∈ l, p.2.name = p.1) →
    (∀ p ∈ l, ',' ∉ p.2.name ∧ '\n' ∉ p.2.name ∧ ',' ∉ p.2.dosage ∧
      ',' ∉ p.2.time_of_day ∧ p.2.current_count < 2 ^ 32 ∧
      p.2.total_prescribed < 2 ^ 32) →
    (∀ p ∈ l, alistContains t.medications p.1 = false) →
    (l.map Prod.fst).Nodup →
    (l.map (fun p => medLineBody p.2)).foldl loadDataLine t
      = { t with medications := t.medications ++ l } := by
  induction l with
  | nil =>
    intro t _ _ _ _
    simp
  | cons p rest ih =>
    intro t hkeys hclean hfresh hnodup
    obtain ⟨hn, hnl, hd, ht, hcc, htp⟩ := hclean p (List.mem_cons_self p rest)
    obtain ⟨hp1, hrestnodup⟩ := List.nodup_cons.mp hnodup
    simp only [List.map_cons, List.foldl_cons]
    rw [loadDataLine_medLineBody t p.2 hn hd ht hcc htp,
        hkeys p (List.mem_cons_self p rest),
        alistInsert_of_not_contains _ _ _ (hfresh p (List.mem_cons_self p rest))]
    rw [ih { t with medications := t.medications ++ [(p.1, p.2)] }
      (fun q hq => hkeys q (List.mem_cons_of_mem p hq))
      (fun q hq => hclean q (List.mem_cons_of_mem p hq))
      ?_ hrestnodup]
    · simp [List.append_assoc]
    · intro q hq
      rw [alistContains_eq_false_iff, alistLookup_append]
      rw [(alistContains_eq_false_iff _ _).mp (hfresh q (List.mem_cons_of_mem p hq))]
      have hne : p.1 ≠ q.1 := by
        intro e
        exact hp1 (e ▸ List.mem_map_of_mem Prod.fst hq)
      simp [alistLookup, hne]

/-! ## Logs file round trip -/

theorem flagStr_no_comma (b : Bool) : ',' ∉ (if b then str "1" else str "0") := by
  cases b <;> decide

theorem logLineBody_split (d nm : Str) (b : Bool)
    (hd : ',' ∉ d) (hn : ',' ∉ nm) :
    splitOnChar ',' (logLineBody d nm b)
      = [d, nm, if b then str "1" else str "0"] := by
  unfold logLineBody
  simp only [List.append_assoc, List.singleton_append, List.cons_append,
    List.nil_append]
  rw [splitOnChar_append_sep ',' _ _ hd,
      splitOnChar_append_sep ',' _ _ hn,
      splitOnChar_of_not_mem ',' _ (flagStr_no_comma b)]

theorem logLineBody_no_newline (d nm : Str) (b : Bool)
    (hd : '\n' ∉ d) (hn : '\n' ∉ nm) :
    '\n' ∉ logLineBody d nm b := by
  have hcomma : ('\n' : Char) ≠ ',' := by decide
  have hflag : '\n' ∉ (if b then str "1" else str "0") := by cases b <;> decide
  unfold logLineBody
  simp [List.mem_append, hd, hn, hcomma, hflag]

theorem logLineBody_stripCR (d nm : Str) (b : Bool) :
    stripCR (logLineBody d nm b) = logLineBody d nm b := by
  apply stripCR_eq_self
  unfold logLineBody
  simp only [List.append_assoc, List.getLast?_append]
  have hflag : List.getLast? (if b then str "1" else str "0")
      = some (if b then '1' else '0') := by
    cases b <;> rfl
  rw [hflag]
  simp only [Option.or_some]
  cases b <;> decide

theorem loadLogsLine_logLineBody (t : MedicationTracker) (d nm : Str) (b : Bool)
    (hd : ',' ∉ d) (hn : ',' ∉ nm) :
    loadLogsLine t (logLineBody d nm b)
      = { t with daily_logs :=
            (alistModify
              (if alistContains t.daily_logs d then t.daily_logs
               else alistInsert t.daily_logs d { date := d, taken := [] }) d
              (fun log => { log with taken := alistInsert log.taken nm b })) } := by
  have hbeq : ((if b then str "1" else str "0") == str "1") = b := by
    cases b <;> decide
  unfold loadLogsLine
  rw [logLineBody_split d nm b hd hn]
  simp [List.getD, hbeq]

theorem foldl_loadLogsLine_samedate (pairs : List (Str × Bool)) :
    ∀ (t : MedicationTracker) (acc : List (Str × DailyLog)) (d : Str)
      (tk : List (Str × Bool)),
    t.daily_logs = acc ++ [(d, { date := d, taken := tk })] →
    alistContains acc d = false →
    ',' ∉ d →
    (∀ q ∈ pairs, ',' ∉ q.1) →
    ((tk.map Prod.fst) ++ (pairs.map Prod.fst)).Nodup →
    (pairs.map (fun q => logLineBody d q.1 q.2)).foldl loadLogsLine t
      = { t with daily_logs := acc ++ [(d, { date := d, taken := tk ++ pairs })] } := by
  induction pairs with
  | nil =>
    intro t acc d tk ht hacc hd hq hnodup
    simp only [List.map_nil, List.foldl_nil, List.append_nil]
    rw [← ht]
  | cons q rest ih =>
    intro t acc d tk ht hacc hd hq hnodup
    have hcont : alistContains t.daily_logs d = true := by
      rw [ht, alistContains, alistLookup_append,
        (alistContains_eq_false_iff _ _).mp hacc]
      simp [alistLookup]
    have hqtk : alistContains tk q.1 = false := by
      rw [alistContains_eq_false_iff]
      apply alistLookup_eq_none_of_not_mem
      obtain ⟨-, -, hdisj⟩ := List.nodup_append.mp hnodup
      intro hmem
      exact hdisj hmem (List.Mem.head _)
    simp only [List.map_cons, List.foldl_cons]
    rw [loadLogsLine_logLineBody t d q.1 q.2 hd (hq q (List.Mem.head _)),
      if_pos hcont, ht,
      alistModify_append_of_not_contains _ _ _ _ hacc]
    have hmod : alistModify [(d, ({ date := d, taken := tk } : DailyLog))] d
        (fun log => { log with taken := alistInsert log.taken q.1 q.2 })
        = [(d, ({ date := d, taken := tk ++ [q] } : DailyLog))] := by
      simp [alistModify, alistInsert_of_not_contains _ _ _ hqtk]
    rw [hmod]
    rw [ih { t with daily_logs := acc ++ [(d, { date := d, taken := tk ++ [q] })] }
      acc d (tk ++ [q]) rfl hacc hd
      (fun q2 hq2 => hq q2 (List.Mem.tail _ hq2)) ?_]
    · simp [List.append_assoc]
    · have hre : (tk ++ [q]).map Prod.fst ++ rest.map Prod.fst
          = tk.map Prod.fst ++ q.1 :: rest.map Prod.fst := by
        simp
      rw [hre]
      exact hnodup

theorem foldl_loadLogsLine_logs (logs : List (Str × DailyLog)) :
    ∀ (t : MedicationTracker) (acc : List (Str × DailyLog)),
    t.daily_logs = acc →
    ((acc.map Prod.fst) ++ (logs.map Prod.fst)).Nodup →
    (∀ p ∈ logs, p.2.date = p.1 ∧ (p.2.taken.map Prod.fst).Nodup) →
    (∀ p ∈ logs, ',' ∉ p.2.date ∧ ∀ q ∈ p.2.taken, ',' ∉ q.1) →
    ((logPairs logs).map (fun q => logLineBody q.1 q.2.1 q.2.2)).foldl loadLogsLine t
      = { t with daily_logs := acc ++ logs.filter (fun p2 => !p2.2.taken.isEmpty) } := by
  induction logs with
  | nil =>
    intro t acc ht _ _ _
    simp only [logPairs, List.map_nil, List.flatten_nil, List.foldl_nil,
      List.filter_nil, List.append_nil]
    rw [← ht]
  | cons p rest ih =>
    intro t acc ht hnodup hwf hclean
    obtain ⟨hdate, htknodup⟩ := hwf p (List.Mem.head _)
    obtain ⟨hdclean, hqclean⟩ := hclean p (List.Mem.head _)
    have hlp : (logPairs (p :: rest)).map (fun q => logLineBody q.1 q.2.1 q.2.2)
        = p.2.taken.map (fun q => logLineBody p.2.date q.1 q.2)
          ++ (logPairs rest).map (fun q => logLineBody q.1 q.2.1 q.2.2) := by
      simp [logPairs, List.map_map, Function.comp]
    rw [hlp, List.foldl_append]
    have hpacc : p.1 ∉ acc.map Prod.fst := by
      obtain ⟨-, -, hdisj⟩ := List.nodup_append.mp hnodup
      intro hmem
      exact hdisj hmem (List.Mem.head _)
    have haccp : alistContains acc p.2.date = false := by
      rw [alistContains_eq_false_iff, hdate]
      exact alistLookup_eq_none_of_not_mem _ _ hpacc
    have hnodup2 : ((acc ++ [(p.1, p.2)]).map Prod.fst ++ rest.map Prod.fst).Nodup := by
      have he : (acc ++ [(p.1, p.2)]).map Prod.fst ++ rest.map Prod.fst
          = acc.map Prod.fst ++ p.1 :: rest.map Prod.fst := by
        simp
      rw [he]
      exact hnodup
    have hnodup3 : (acc.map Prod.fst ++ rest.map Prod.fst).Nodup := by
      refine hnodup.sublist ?_
      apply List.Sublist.append_left
      simp only [List.map_cons]
      exact List.sublist_cons_self _ _
    cases htk : p.2.taken with
    | nil =>
      simp only [List.map_nil, List.foldl_nil]
      rw [ih t acc ht hnodup3 (fun q hq => hwf q (List.Mem.tail _ hq))
        (fun q hq => hclean q (List.Mem.tail _ hq))]
      have hfil : (p :: rest).filter (fun p2 => !p2.2.taken.isEmpty)
          = rest.filter (fun p2 => !p2.2.taken.isEmpty) := by
        simp [List.filter_cons, htk]
      rw [hfil]
    | cons q qs =>
      have hdacc : alistContains t.daily_logs p.2.date = false := by
        rw [ht]
        exact haccp
      simp only [List.map_cons, List.foldl_cons]
      rw [loadLogsLine_logLineBody t p.2.date q.1 q.2 hdclean
        (hqclean q (htk ▸ List.Mem.head qs))]
      rw [if_neg (by simp [hdacc]), ht,
        alistInsert_of_not_contains _ _ _ haccp,
        alistModify_append_of_not_contains _ _ _ _ haccp]
      have hmod : alistModify
          [(p.2.date, ({ date := p.2.date, taken := [] } : DailyLog))] p.2.date
          (fun log => { log with taken := alistInsert log.taken q.1 q.2 })
          = [(p.2.date, ({ date := p.2.date, taken := [q] } : DailyLog))] := by
        simp [alistModify, alistInsert]
      rw [hmod]
      have htknodup2 : ([q].map Prod.fst ++ qs.map Prod.fst).Nodup := by
        have he : [q].map Prod.fst ++ qs.map Prod.fst = (q :: qs).map Prod.fst := by
          simp
        rw [he, ← htk]
        exact htknodup
      rw [foldl_loadLogsLine_samedate qs
        { t with daily_logs := acc ++ [(p.2.date, ({ date := p.2.date, taken := [q] } : DailyLog))] }
        acc p.2.date [q] rfl haccp hdclean
        (fun q2 hq2 => hqclean q2 (htk ▸ List.Mem.tail q hq2)) htknodup2]
      have hpair : (p.2.date, ({ date := p.2.date, taken := [q] ++ qs } : DailyLog))
          = (p.1, p.2) := by
        have he2 : ([q] ++ qs : List (Str × Bool)) = p.2.taken := by
          rw [htk]
          rfl
        rw [he2, ← hdate]
      rw [hpair]
      rw [ih { t with daily_logs := acc ++ [(p.1, p.2)] } (acc ++ [(p.1, p.2)]) rfl
        hnodup2 (fun q2 hq2 => hwf q2 (List.Mem.tail _ hq2))
        (fun q2 hq2 => hclean q2 (List.Mem.tail _ hq2))]
      have hfil : (p :: rest).filter (fun p2 => !p2.2.taken.isEmpty)
          = p :: rest.filter (fun p2 => !p2.2.taken.isEmpty) := by
        simp [List.filter_cons, htk]
      rw [hfil]
      simp [List.append_assoc]

theorem save_logs_eq_flatten (t : MedicationTracker) :
    save_logs t
      = (((logPairs t.daily_logs).map (fun q => logLineBody q.1 q.2.1 q.2.2)).map
          (fun b => b ++ ['\n'])).flatten := by
  unfold save_logs
  have key : ∀ (logs : List (Str × DailyLog)),
      (logs.map (fun p => (p.2.taken.map (fun q2 => logLine p.2.date q2.1 q2.2)).flatten)).flatten
        = (((logPairs logs).map (fun q => logLineBody q.1 q.2.1 q.2.2)).map
            (fun b => b ++ ['\n'])).flatten := by
    intro logs
    induction logs with
    | nil => rfl
    | cons p rest ih =>
      have hlp2 : (logPairs (p :: rest)).map (fun q => logLineBody q.1 q.2.1 q.2.2)
          = p.2.taken.map (fun q => logLineBody p.2.date q.1 q.2)
            ++ (logPairs rest).map (fun q => logLineBody q.1 q.2.1 q.2.2) := by
        simp [logPairs, List.map_map, Function.comp]
      rw [List.map_cons, List.flatten_cons, hlp2, List.map_append,
        List.flatten_append, ← ih]
      congr 1
      rw [List.map_map]
      rfl
  exact key t.daily_logs

theorem logPairs_mem (logs : List (Str × DailyLog)) (x : Str × Str × Bool)
    (hx : x ∈ logPairs logs) :
    ∃ p ∈ logs, ∃ q ∈ p.2.taken, x = (p.2.date, q.1, q.2) := by
  unfold logPairs at hx
  rw [List.mem_flatten] at hx
  obtain ⟨l, hl, hxl⟩ := hx
  rw [List.mem_map] at hl
  obtain ⟨p, hp, rfl⟩ := hl
  rw [List.mem_map] at hxl
  obtain ⟨q, hq, rfl⟩ := hxl
  exact ⟨p, hp, q, hq, rfl⟩

theorem takenEntry_filter (logs : List (Str × DailyLog))
    (hnodup : (logs.map Prod.fst).Nodup) (d n : Str) :
    (alistLookup (logs.filter (fun p2 => !p2.2.taken.isEmpty)) d).bind
        (fun log => alistLookup log.taken n)
      = (alistLookup logs d).bind (fun log => alistLookup log.taken n) := by
  induction logs with
  | nil => rfl
  | cons p rest ih =>
    obtain ⟨hp, hrest⟩ := List.nodup_cons.mp hnodup
    by_cases hdp : p.1 = d
    · by_cases hpe : p.2.taken.isEmpty = true
      · have htk : p.2.taken = [] := List.isEmpty_iff.mp hpe
        have hnotin : alistLookup (rest.filter (fun p2 => !p2.2.taken.isEmpty)) d
            = none := by
          apply alistLookup_eq_none_of_not_mem
          intro hmem
          apply hp
          have hsub : ((rest.filter (fun p2 => !p2.2.taken.isEmpty)).map Prod.fst).Sublist
              (rest.map Prod.fst) := (List.filter_sublist _).map Prod.fst
          rw [hdp]
          exact hsub.subset hmem
        simp [List.filter_cons, hpe, hnotin, alistLookup, hdp, htk]
      · simp [List.filter_cons, hpe, alistLookup, hdp]
    · by_cases hpe : p.2.taken.isEmpty = true <;>
        simp [List.filter_cons, hpe, alistLookup, hdp, ih hrest]

/-! ## C1: the save/load round trip -/

/-- C1 (amended): for a well-formed store (unique keys, key equals stored
name/date, u32-range counts, all automatic in the source) whose persisted text
fields contain neither a comma nor a newline, saving and reloading into a
fresh store reproduces the medications map exactly and reproduces every
(date, med_name) taken entry exactly. -/
theorem save_load_roundtrip (t : MedicationTracker)
    (hwf : trackerWF t) (hclean : cleanTracker t) :
    (reloadTracker t).medications = t.medications ∧
    ∀ d n, takenEntry (reloadTracker t) d n = takenEntry t d n := by
  obtain ⟨hmednodup, hmedkeys, hlognodup, hlogwf⟩ := hwf
  obtain ⟨hmedclean, hlogclean⟩ := hclean
  have hsave : save_data t
      = ((t.medications.map (fun p => medLineBody p.2)).map
          (fun b => b ++ ['\n'])).flatten := by
    unfold save_data
    rw [List.map_map]
    rfl
  have hlines : fileLines (save_data t)
      = t.medications.map (fun p => medLineBody p.2) := by
    rw [hsave]
    apply fileLines_flatten
    · intro b hb
      obtain ⟨p, hp, rfl⟩ := List.mem_map.mp hb
      obtain ⟨⟨hn1, hn2⟩, ⟨hd1, hd2⟩, ⟨ht1, ht2⟩, -, -⟩ := hmedclean p hp
      exact medLineBody_no_newline p.2 hn2 hd2 ht2
    · intro b hb
      obtain ⟨p, hp, rfl⟩ := List.mem_map.mp hb
      exact medLineBody_stripCR p.2
  have hload1 : load_data (emptyTracker t.patient_name) (save_data t)
      = { emptyTracker t.patient_name with medications := t.medications } := by
    unfold load_data
    rw [hlines]
    rw [foldl_loadDataLine t.medications (emptyTracker t.patient_name)
      hmedkeys ?_ ?_ hmednodup]
    · rfl
    · intro p hp
      obtain ⟨⟨hn1, hn2⟩, ⟨hd1, hd2⟩, ⟨ht1, ht2⟩, hcc, htp⟩ := hmedclean p hp
      exact ⟨hn1, hn2, hd1, ht1, hcc, htp⟩
    · intro p hp
      rfl
  have hlines2 : fileLines (save_logs t)
      = (logPairs t.daily_logs).map (fun q => logLineBody q.1 q.2.1 q.2.2) := by
    rw [save_logs_eq_flatten]
    apply fileLines_flatten
    · intro b hb
      obtain ⟨x, hx, rfl⟩ := List.mem_map.mp hb
      obtain ⟨p, hp, q, hq, rfl⟩ := logPairs_mem _ x hx
      obtain ⟨⟨hd1, hd2⟩, hqc⟩ := hlogclean p hp
      obtain ⟨hq1, hq2⟩ := hqc q hq
      exact logLineBody_no_newline _ _ _ hd2 hq2
    · intro b hb
      obtain ⟨x, hx, rfl⟩ := List.mem_map.mp hb
      exact logLineBody_stripCR _ _ _
  have hload2 : load_logs
      { emptyTracker t.patient_name with medications := t.medications }
      (save_logs t)
      = { medications := t.medications,
          daily_logs := t.daily_logs.filter (fun p2 => !p2.2.taken.isEmpty),
          patient_name := t.patient_name } := by
    unfold load_logs
    rw [hlines2]
    rw [foldl_loadLogsLine_logs t.daily_logs _ [] rfl ?_ hlogwf ?_]
    · rfl
    · exact hlognodup
    · intro p hp
      obtain ⟨⟨hd1, hd2⟩, hqc⟩ := hlogclean p hp
      exact ⟨hd1, fun q hq => (hqc q hq).1⟩
  have hreload : reloadTracker t
      = { medications := t.medications,
          daily_logs := t.daily_logs.filter (fun p2 => !p2.2.taken.isEmpty),
          patient_name := t.patient_name } := by
    unfold reloadTracker
    rw [hload1, hload2]
  constructor
  · rw [hreload]
  · intro d n
    rw [hreload]
    unfold takenEntry
    exact takenEntry_filter t.daily_logs hlognodup d n

/-- C1 counterexample: commas are not the only dangerous characters.  A store
whose single medication has a newline (but no comma) in its name satisfies
the stated comma-freedom hypothesis, yet the save/load round trip does not
reproduce it: the reloaded store has no entry under that name. -/
theorem roundtrip_counterexample :
    (∀ p ∈ newlineTracker.medications,
      ',' ∉ p.2.name ∧ ',' ∉ p.2.dosage ∧ ',' ∉ p.2.time_of_day) ∧
    (∀ p ∈ newlineTracker.daily_logs,
      ',' ∉ p.2.date ∧ ∀ q ∈ p.2.taken, ',' ∉ q.1) ∧
    trackerWF newlineTracker ∧
    alistLookup newlineTracker.medications (str "a" ++ '\n' :: str "b")
      = some { name := str "a" ++ '\n' :: str "b", dosage := str "d",
               time_of_day := str "t", current_count := 1,
               total_prescribed := 1 } ∧
    alistLookup (reloadTracker newlineTracker).medications
      (str "a" ++ '\n' :: str "b") = none := by
  unfold trackerWF
  decide

/-- Witness for C1 (amended) at a concrete store. -/
theorem save_load_roundtrip_witness :
    (reloadTracker cleanSample).medications = cleanSample.medications ∧
    takenEntry (reloadTracker cleanSample) (str "D1") (str "Aspirin")
      = takenEntry cleanSample (str "D1") (str "Aspirin") :=
  ⟨(save_load_roundtrip cleanSample (by unfold trackerWF; decide)
      (by unfold cleanTracker cleanStr; decide)).1,
   (save_load_roundtrip cleanSample (by unfold trackerWF; decide)
      (by unfold cleanTracker cleanStr; decide)).2
     (str "D1") (str "Aspirin")⟩
